import Mathlib

/-
  Shallow embedding of the mi-ni Experiment Core:
  URN codec (src/mini/urns.py), call-state tracker (src/mini/_state.py),
  guard composition and the remote wrapper (src/mini/guards.py,
  src/mini/experiment.py), and the SendTo channel (src/mini/local_dispatch.py).
  Strings are modelled at the UTF-8 byte level as lists of naturals.
-/

namespace Mini

/-- Bytes of an ASCII string literal (code points; every literal used here is ASCII). -/
def bs (s : String) : List Nat := s.data.map Char.toNat

/-- Characters Python urllib.parse.quote never escapes (letters, digits, and the four marks). -/
def isUnreserved (b : Nat) : Bool :=
  (48 ≤ b && b ≤ 57) || (65 ≤ b && b ≤ 90) || (97 ≤ b && b ≤ 122)
    || b == 45 || b == 46 || b == 95 || b == 126

/-- Upper-case hex digit of a value below 16, as in Python quote. -/
def hexUpper (n : Nat) : Nat := if n < 10 then 48 + n else 55 + n

/-- Hex digit recognition of Python unquote (both cases). -/
def isHexDigit (b : Nat) : Bool :=
  (48 ≤ b && b ≤ 57) || (65 ≤ b && b ≤ 70) || (97 ≤ b && b ≤ 102)

/-- Value of a hex digit byte. -/
def hexVal (b : Nat) : Nat :=
  if b ≤ 57 then b - 48 else if b ≤ 70 then b - 55 else b - 87

/-- Percent-expansion of one byte, as in urllib.parse.quote with an empty safe set. -/
def expandByte (b : Nat) : List Nat :=
  if isUnreserved b then [b] else [37, hexUpper (b / 16), hexUpper (b % 16)]

/-- urllib.parse.quote with safe set empty, acting on UTF-8 bytes. -/
def quote (l : List Nat) : List Nat := (l.map expandByte).flatten

/-- urllib.parse.unquote on UTF-8 bytes: a percent followed by two hex digits decodes
to one byte; an invalid escape is copied literally. -/
def unquote : List Nat → List Nat
  | [] => []
  | 37 :: a :: c :: rest =>
    if isHexDigit a && isHexDigit c then (hexVal a * 16 + hexVal c) :: unquote rest
    else 37 :: unquote (a :: c :: rest)
  | b :: rest => b :: unquote rest

/-- Python str.split on a colon: always returns at least one (possibly empty) part. -/
def splitOnColon : List Nat → List (List Nat)
  | [] => [[]]
  | b :: rest =>
    match splitOnColon rest with
    | [] => [[]]
    | p :: ps => if b == 58 then [] :: p :: ps else (b :: p) :: ps

/-- ASCII whitespace bytes stripped by Python str.strip. -/
def isWS (b : Nat) : Bool := b == 9 || b == 10 || b == 11 || b == 12 || b == 13 || b == 32

/-- Python str.strip on bytes. -/
def stripBytes (l : List Nat) : List Nat :=
  ((l.dropWhile isWS).reverse.dropWhile isWS).reverse

/-- Python str.join with a colon separator. -/
def joinColon : List (List Nat) → List Nat
  | [] => []
  | [p] => p
  | p :: ps => p ++ 58 :: joinColon ps

/-- to_urn from src/mini/urns.py: quote each part and join with colons. -/
def to_urn (parts : List (List Nat)) : List Nat :=
  joinColon (parts.map quote)

/-- parse_urn from src/mini/urns.py: strip, split on colons, unquote each part. -/
def parse_urn (urn : List Nat) : List (List Nat) :=
  (splitOnColon (stripBytes urn)).map unquote

/-- The zip_longest loop of matches_urn: parts of the parsed URN against raw pattern parts.
A pattern part equal to a single star is a wildcard; an exhausted pattern accepts the rest;
an exhausted URN accepts only further wildcards. -/
def matchParts : List (List Nat) → List (List Nat) → Bool
  | _, [] => true
  | [], spec :: rest => if spec == [42] then matchParts [] rest else false
  | part :: ps, spec :: ss =>
    if spec == [42] then matchParts ps ss
    else if part == unquote spec then matchParts ps ss
    else false

/-- matches_urn from src/mini/urns.py. -/
def matches_urn (urn pattern : List Nat) : Bool :=
  matchParts (parse_urn urn) (splitOnColon pattern)

/-- Characters the mini-URN regular expression allows inside a part. -/
def isMiniPartChar (b : Nat) : Bool :=
  (48 ≤ b && b ≤ 57) || (65 ≤ b && b ≤ 90) || (97 ≤ b && b ≤ 122)
    || b == 37 || b == 46 || b == 95 || b == 45

/-- is_mini_urn from src/mini/urns.py: the anchored pattern mini(:[a-zA-Z0-9%._-]*)+,
where the trailing anchor also accepts a final newline. -/
def is_mini_urn (l : List Nat) : Bool :=
  let l' := if l.getLast? == some 10 then l.dropLast else l
  match l' with
  | 109 :: 105 :: 110 :: 105 :: rest =>
    (match rest with
     | 58 :: _ => rest.all (fun b => b == 58 || isMiniPartChar b)
     | _ => false)
  | _ => false

/-- FunctionState from src/mini/_state.py: the four call states. -/
inductive FState
  | guard
  | start
  | error
  | ended
deriving DecidableEq, Fintype

/-- Serialized name of a state; ended prints as end. -/
def FState.bytes : FState → List Nat
  | .guard => bs "guard"
  | .start => bs "start"
  | .error => bs "error"
  | .ended => bs "end"

/-- CallState from src/mini/_state.py. -/
structure CallState where
  run_id : List Nat
  fn_name : List Nat
  fn_id : List Nat
  call_id : List Nat
  state : FState
  exception : Option (List Nat) := none
deriving DecidableEq

/-- CallState.to_urn: nine parts, the exception field is never serialized. -/
def CallState.to_urn (s : CallState) : List Nat :=
  Mini.to_urn [bs "mini", bs "run", s.run_id, bs "fn", s.fn_name, s.fn_id,
    bs "call", s.call_id, s.state.bytes]

/-- The pattern used by CallState.matches. -/
def callStatePattern : List Nat := bs "mini:run:*:fn:*:*:call:*:*"

/-- CallState.matches. -/
def CallState.matches (message : List Nat) : Bool := matches_urn message callStatePattern

/-- CallState.from_urn: a nine-part URN with state guard, start or end, or a
ten-part URN with state error and a trailing message; anything else raises
ValueError, modelled as none. -/
def CallState.from_urn (message : List Nat) : Option CallState :=
  match parse_urn message with
  | [m, r, rid, f, fname, fid, c, cid, st] =>
    if m == bs "mini" && r == bs "run" && f == bs "fn" && c == bs "call"
        && (st == bs "guard" || st == bs "start" || st == bs "end") then
      some { run_id := rid, fn_name := fname, fn_id := fid, call_id := cid,
             state := if st == bs "guard" then .guard
                      else if st == bs "start" then .start else .ended }
    else none
  | [m, r, rid, f, fname, fid, c, cid, st, exc] =>
    if m == bs "mini" && r == bs "run" && f == bs "fn" && c == bs "call"
        && st == bs "error" then
      some { run_id := rid, fn_name := fname, fn_id := fid, call_id := cid,
             state := .error, exception := some exc }
    else none
  | _ => none

/-- The defaultdict of per-state counters in CallTracker. -/
structure Counts where
  guard : Int := 0
  start : Int := 0
  error : Int := 0
  ended : Int := 0
deriving DecidableEq

/-- Add d to one state's counter. -/
def Counts.adjust (c : Counts) (s : FState) (d : Int) : Counts :=
  match s with
  | .guard => { c with guard := c.guard + d }
  | .start => { c with start := c.start + d }
  | .error => { c with error := c.error + d }
  | .ended => { c with ended := c.ended + d }

/-- Insertion-ordered dictionary lookup for the calls map. -/
def lookupCall : List (List Nat × FState) → List Nat → Option FState
  | [], _ => none
  | (k, v) :: rest, id => if k == id then some v else lookupCall rest id

/-- Insertion-ordered dictionary assignment for the calls map. -/
def setCall : List (List Nat × FState) → List Nat → FState → List (List Nat × FState)
  | [], id, v => [(id, v)]
  | (k, w) :: rest, id, v =>
    if k == id then (k, v) :: rest else (k, w) :: setCall rest id v

/-- CallTracker from src/mini/_state.py. -/
structure CallTracker where
  run_id : List Nat
  calls : List (List Nat × FState) := []
  state_counts : Counts := {}
  state_history : List CallState := []
deriving DecidableEq

/-- The allowed_from sets of CallTracker.handle, keyed on the incoming state. -/
def allowedFrom : FState → List (Option FState)
  | .guard => [none]
  | .start => [some .guard]
  | .error => [some .guard, some .start]
  | .ended => [some .start, some .error]

/-- CallTracker.handle. The event is appended to state_history first; if the
previous state of the call is not in allowed_from, CallStateError is raised
(flag true) with no further mutation; otherwise counters and the calls map are
updated. -/
def CallTracker.handle (t : CallTracker) (s : CallState) : CallTracker × Bool :=
  if lookupCall t.calls s.call_id ∈ allowedFrom s.state then
    ({ run_id := t.run_id,
       calls := setCall t.calls s.call_id s.state,
       state_counts :=
         (match lookupCall t.calls s.call_id with
          | some p => t.state_counts.adjust p (-1)
          | none => t.state_counts).adjust s.state 1,
       state_history := t.state_history ++ [s] }, false)
  else
    ({ t with state_history := t.state_history ++ [s] }, true)

/-- CallTracker.any_active. -/
def CallTracker.any_active (t : CallTracker) : Bool :=
  t.calls.any (fun p => p.2 != FState.ended)

/-- CallTracker.any_running. -/
def CallTracker.any_running (t : CallTracker) : Bool :=
  t.state_counts.start > 0

/-- Feed a list of events through handle, recording whether every event was
accepted without a CallStateError. -/
def CallTracker.runAll (t : CallTracker) : List CallState → CallTracker × Bool
  | [] => (t, true)
  | s :: rest =>
    let p := CallTracker.handle t s
    let q := CallTracker.runAll p.1 rest
    (q.1, !p.2 && q.2)

/-- The state subsequence one call_id contributes to an event list. -/
def statesOf (id : List Nat) (evs : List CallState) : List FState :=
  (evs.filter (fun s => s.call_id == id)).map CallState.state

/-- The transition table of the specification, as explicit pairs. -/
def transitionTable : List (Option FState × FState) :=
  [(none, .guard), (some .guard, .start), (some .guard, .error),
   (some .start, .error), (some .start, .ended), (some .error, .ended)]

/-- Membership in the transition table. -/
def allowedTransition (prev : Option FState) (next : FState) : Bool :=
  transitionTable.contains (prev, next)

/-- A state sequence is a valid path of the table from a given origin. -/
def pathOk : Option FState → List FState → Bool
  | _, [] => true
  | prev, s :: rest => allowedTransition prev s && pathOk (some s) rest

/-- Outcome of the per-line body of consume in src/mini/experiment.py. -/
inductive StepResult
  | normal (t : CallTracker) (emitted : Bool)
  | crashed
deriving DecidableEq

/-- One line of consume: a mini URN matching the call-state pattern is parsed
and handled (CallStateError is caught and logged; a ValueError from from_urn is
not caught, crashing the task); any other line goes to the output handler
exactly when some call is running. -/
def consumeLine (t : CallTracker) (line : List Nat) : StepResult :=
  if is_mini_urn line then
    if CallState.matches (stripBytes line) then
      match CallState.from_urn (stripBytes line) with
      | some cs => StepResult.normal (CallTracker.handle t cs).1 false
      | none => StepResult.crashed
    else StepResult.normal t t.any_running
  else StepResult.normal t t.any_running

/-- Acquire/release events of guard composition. -/
inductive GEvent
  | acq (g : Nat)
  | rel (g : Nat)
  | callTarget
deriving DecidableEq

/-- _wrap_with_guard on the normal path: enter the guard, run the inner
function, exit the guard. -/
def wrapTrace (g : Nat) (inner : List GEvent) : List GEvent :=
  GEvent.acq g :: inner ++ [GEvent.rel g]

/-- modal_function's wrapping loops: specific guards are folded over in
reverse, then global guards in reverse, so earlier guards end up outermost. -/
def composeGuards (globalGuards specificGuards : List Nat) : List GEvent :=
  let afterSpecific :=
    specificGuards.reverse.foldl (fun acc g => wrapTrace g acc) [GEvent.callTarget]
  globalGuards.reverse.foldl (fun acc g => wrapTrace g acc) afterSpecific

/-- An exception in the remote wrapper model: one raised by the user target,
or the TypeError from calling a generator with the wrong number of arguments. -/
inductive Exc
  | user (e : Nat)
  | typeError
deriving DecidableEq

/-- Events of a remote invocation in the exception model: after-guard
callbacks (exception-aware ones record the observed triple, none standing for
the null triple), emitted call states, and the target call. -/
inductive XEvent
  | cbAfterExc (g : Nat) (observed : Option Exc)
  | cbAfter (g : Nat)
  | emit (s : FState)
  | target
deriving DecidableEq

/-- A computation: its event trace and the exception leaving it, if any. -/
structure RunResult where
  events : List XEvent
  raised : Option Exc
deriving DecidableEq

/-- The four callback shapes guards.after accepts, keyed by arity. -/
inductive AfterFlavor
  | bare
  | fn
  | exc
  | fnExc
deriving DecidableEq

/-- Parameter count of the user callback underlying the guard. This is what
inspect.signature reports for the guard, because functools.wraps records the
callback as the wrapped function and signature follows that chain. -/
def cbParamCount : AfterFlavor → Nat
  | .bare => 0
  | .fn => 1
  | .exc => 3
  | .fnExc => 4

/-- Arity of the context-manager generator guards.after builds: only the
fn-receiving flavors take the original function as an argument. -/
def generatorArity : AfterFlavor → Nat
  | .bare => 0
  | .fn => 1
  | .exc => 0
  | .fnExc => 1

/-- How many arguments _wrap_with_guard passes when constructing the guard:
none when the reported signature is empty, otherwise the original function. -/
def ctorArgCount (f : AfterFlavor) : Nat :=
  if cbParamCount f == 0 then 0 else 1

/-- _wrap_with_guard around a guards.after guard. Constructing the context
manager calls the generator with ctorArgCount arguments; an arity mismatch
raises TypeError before the guard body or the inner function runs. Otherwise
the generator runs the inner function under try/finally (non-exception-aware
flavors, which re-raise) or try/except BaseException/finally (exception-aware
flavors, whose generator returns after recording the triple, so the
context-manager protocol suppresses the exception). -/
def wrapAfterGuard (f : AfterFlavor) (g : Nat) (inner : RunResult) : RunResult :=
  if ctorArgCount f != generatorArity f then
    { events := [], raised := some Exc.typeError }
  else
    match f with
    | .bare | .fn => { events := inner.events ++ [XEvent.cbAfter g], raised := inner.raised }
    | .exc | .fnExc =>
      { events := inner.events ++ [XEvent.cbAfterExc g inner.raised], raised := none }

/-- The body of modal_function around the composed guards: emit guard and
start, run, emit error if an exception escaped, always emit end, re-raise. -/
def modalWrapper (guarded : RunResult) : RunResult :=
  { events := [XEvent.emit .guard, XEvent.emit .start] ++ guarded.events
      ++ (match guarded.raised with | some _ => [XEvent.emit .error] | none => [])
      ++ [XEvent.emit .ended],
    raised := guarded.raised }

/-- A target whose body raises exception e. -/
def targetRaising (e : Nat) : RunResult :=
  { events := [XEvent.target], raised := some (Exc.user e) }

/-- What the finally block of send_batch_to can do on exit. -/
inductive TrailingOutcome
  | completed
  | warnedTimeout
  | raisedTimeout
deriving DecidableEq

/-- Exit path of send_batch_to in src/mini/local_dispatch.py: stop the
consumer, await it under trailing_timeout, and on TimeoutError only log a
warning. -/
def sendBatchToExit (timedOut : Bool) : TrailingOutcome :=
  if timedOut then .warnedTimeout else .completed

/-- The keyword parameters send_batch_to accepts. -/
def sendBatchToParams : List (List Nat) := [bs "receive", bs "trailing_timeout"]

/-- One run of _batched_consumer over a script: each entry is whether the stop
task was among the completed waits, and what the non-blocking drain of the
default partition returned. The handler is invoked only on a non-empty drain;
a stop wakeup still delivers its drained batch before breaking. -/
def consumerRun : List (Bool × List Nat) → List (List Nat)
  | [] => []
  | (stopDone, vals) :: rest =>
    let calls := if vals.isEmpty then [] else [vals]
    if stopDone then calls else calls ++ consumerRun rest

/-- Whether a log line is consumed as a call-state event. -/
def isCallStateLine (line : List Nat) : Bool :=
  is_mini_urn line && CallState.matches (stripBytes line)

/-- An all-wildcard pattern of a given arity. -/
def starPattern (n : Nat) : List Nat := joinColon (List.replicate n [42])

/-- A guard-state event of one concrete call. -/
def csG : CallState :=
  { run_id := bs "r0", fn_name := bs "train", fn_id := bs "f0",
    call_id := bs "c0", state := FState.guard }

/-- The matching start event. -/
def csS : CallState := { csG with state := FState.start }

/-- The matching error event; its exception field is only local, never serialized. -/
def csE : CallState := { csG with state := FState.error, exception := some (bs "boom") }

/-- A fresh tracker. -/
def t0 : CallTracker := { run_id := bs "r0" }

/-- The tracker after the guard event. -/
def t1 : CallTracker := (CallTracker.handle t0 csG).1

/-- The tracker after guard and start: one call is running. -/
def t2 : CallTracker := (CallTracker.handle t1 csS).1

theorem mem_allowedFrom_iff :
    ∀ (prev : Option FState) (next : FState),
      prev ∈ allowedFrom next ↔ allowedTransition prev next = true := by
  decide

theorem handle_raises_iff (t : CallTracker) (s : CallState) :
    (CallTracker.handle t s).2
      = !allowedTransition (lookupCall t.calls s.call_id) s.state := by
  unfold CallTracker.handle
  by_cases hc : lookupCall t.calls s.call_id ∈ allowedFrom s.state
  · rw [if_pos hc]
    simp [(mem_allowedFrom_iff _ _).mp hc]
  · rw [if_neg hc]
    have hA : allowedTransition (lookupCall t.calls s.call_id) s.state = false := by
      cases hA : allowedTransition (lookupCall t.calls s.call_id) s.state
      · rfl
      · exact absurd ((mem_allowedFrom_iff _ _).mpr hA) hc
    simp [hA]

theorem handle_ok_calls (t : CallTracker) (s : CallState)
    (h : (CallTracker.handle t s).2 = false) :
    (CallTracker.handle t s).1.calls = setCall t.calls s.call_id s.state := by
  unfold CallTracker.handle at h ⊢
  by_cases hc : lookupCall t.calls s.call_id ∈ allowedFrom s.state
  · rw [if_pos hc]
  · rw [if_neg hc] at h
    simp at h

theorem lookupCall_setCall_same (m : List (List Nat × FState)) (k : List Nat) (v : FState) :
    lookupCall (setCall m k v) k = some v := by
  induction m with
  | nil => simp [setCall, lookupCall]
  | cons p rest ih =>
    obtain ⟨k', v'⟩ := p
    by_cases h : k' = k
    · simp [setCall, lookupCall, h]
    · simp [setCall, lookupCall, h, ih]

theorem lookupCall_setCall_other (m : List (List Nat × FState)) (k i : List Nat) (v : FState)
    (h : k ≠ i) : lookupCall (setCall m k v) i = lookupCall m i := by
  induction m with
  | nil => simp [setCall, lookupCall, h]
  | cons p rest ih =>
    obtain ⟨k', v'⟩ := p
    by_cases hk : k' = k
    · simp [setCall, lookupCall, hk, h]
    · simp [setCall, lookupCall, hk, ih]

theorem runAll_pathOk (evs : List CallState) :
    ∀ t : CallTracker, (CallTracker.runAll t evs).2 = true →
      ∀ id, pathOk (lookupCall t.calls id) (statesOf id evs) = true := by
  induction evs with
  | nil => intro t _ id; simp [statesOf, pathOk]
  | cons s rest ih =>
    intro t h id
    rw [show CallTracker.runAll t (s :: rest)
        = ((CallTracker.runAll (CallTracker.handle t s).1 rest).1,
           !(CallTracker.handle t s).2 && (CallTracker.runAll (CallTracker.handle t s).1 rest).2)
      from rfl] at h
    simp only [Bool.and_eq_true, Bool.not_eq_true'] at h
    obtain ⟨h1, h2⟩ := h
    have hcalls := handle_ok_calls t s h1
    have hallowed : allowedTransition (lookupCall t.calls s.call_id) s.state = true := by
      have := handle_raises_iff t s
      rw [h1] at this
      cases hA : allowedTransition (lookupCall t.calls s.call_id) s.state
      · rw [hA] at this; simp at this
      · rfl
    by_cases hid : s.call_id = id
    · subst hid
      have hs : statesOf s.call_id (s :: rest) = s.state :: statesOf s.call_id rest := by
        simp [statesOf, List.filter_cons]
      rw [hs]
      simp only [pathOk, Bool.and_eq_true]
      refine ⟨hallowed, ?_⟩
      have hrec := ih (CallTracker.handle t s).1 h2 s.call_id
      rw [hcalls, lookupCall_setCall_same t.calls s.call_id s.state] at hrec
      exact hrec
    · have hs : statesOf id (s :: rest) = statesOf id rest := by
        simp [statesOf, List.filter_cons, hid]
      rw [hs]
      have hrec := ih (CallTracker.handle t s).1 h2 id
      rw [hcalls, lookupCall_setCall_other t.calls s.call_id id s.state hid] at hrec
      exact hrec

/-- C3: CallTracker.handle raises a call-state violation exactly when the
transition from the call's previous state to the event's state is outside
the table, and an event list accepted without error projects, for every
call_id, to a valid path of the table. -/
theorem tracker_transition_table_iff (t : CallTracker) (s : CallState)
    (evs : List CallState) (rid : List Nat)
    (hok : (CallTracker.runAll { run_id := rid } evs).2 = true) :
    ((CallTracker.handle t s).2 = true
      ↔ allowedTransition (lookupCall t.calls s.call_id) s.state = false)
    ∧ ∀ id, pathOk none (statesOf id evs) = true := by
  constructor
  · rw [handle_raises_iff]
    cases allowedTransition (lookupCall t.calls s.call_id) s.state <;> simp
  · intro id
    have := runAll_pathOk evs { run_id := rid } hok id
    simpa [lookupCall] using this

/-- Witness for C3 at a concrete violating event and a concrete legal run. -/
theorem tracker_transition_table_iff_witness :
    ((CallTracker.handle t0 csS).2 = true
      ↔ allowedTransition (lookupCall t0.calls csS.call_id) csS.state = false)
    ∧ ∀ id, pathOk none (statesOf id [csG, csS, csE]) = true :=
  tracker_transition_table_iff t0 csS [csG, csS, csE] (bs "r0") (by decide)

/-- C9 counterexample: a violating event is still recorded in state_history,
so the tracker's observable state is not entirely unchanged. -/
theorem violation_still_appends_history :
    (CallTracker.handle t0 csS).2 = true
    ∧ (CallTracker.handle t0 csS).1.state_history ≠ t0.state_history := by decide

/-- C9 amended: on a call-state violation the calls map and the state counters
are unchanged, the offending event is appended to state_history, and consume
catches the error and continues without emitting the line. -/
theorem violation_preserves_calls_and_counts (t : CallTracker) (s : CallState)
    (line : List Nat)
    (h : (CallTracker.handle t s).2 = true)
    (hm : is_mini_urn line = true)
    (hcs : CallState.matches (stripBytes line) = true)
    (hp : CallState.from_urn (stripBytes line) = some s) :
    (CallTracker.handle t s).1.calls = t.calls
    ∧ (CallTracker.handle t s).1.state_counts = t.state_counts
    ∧ (CallTracker.handle t s).1.state_history = t.state_history ++ [s]
    ∧ consumeLine t line = StepResult.normal (CallTracker.handle t s).1 false := by
  have hfields :
      (CallTracker.handle t s).1.calls = t.calls
      ∧ (CallTracker.handle t s).1.state_counts = t.state_counts
      ∧ (CallTracker.handle t s).1.state_history = t.state_history ++ [s] := by
    unfold CallTracker.handle at h ⊢
    by_cases hc : lookupCall t.calls s.call_id ∈ allowedFrom s.state
    · rw [if_pos hc] at h
      simp at h
    · rw [if_neg hc]
      exact ⟨rfl, rfl, rfl⟩
  exact ⟨hfields.1, hfields.2.1, hfields.2.2, by simp [consumeLine, hm, hcs, hp]⟩

/-- Witness for C9 at the concrete violating start-without-guard event. -/
theorem violation_preserves_calls_and_counts_witness :
    (CallTracker.handle t0 csS).1.calls = t0.calls
    ∧ (CallTracker.handle t0 csS).1.state_counts = t0.state_counts
    ∧ (CallTracker.handle t0 csS).1.state_history = t0.state_history ++ [csS]
    ∧ consumeLine t0 (CallState.to_urn csS) = StepResult.normal (CallTracker.handle t0 csS).1 false :=
  violation_preserves_calls_and_counts t0 csS (CallState.to_urn csS)
    (by decide) (by decide) (by decide) (by decide)

/-- C8 counterexample: a reserved mini-prefixed line that is not a call-state
event is passed to the output handler while a call is running. -/
theorem reserved_mini_line_reaches_output :
    is_mini_urn (bs "mini:reserved") = true
    ∧ CallState.matches (stripBytes (bs "mini:reserved")) = false
    ∧ consumeLine t2 (bs "mini:reserved") = StepResult.normal t2 true := by decide

/-- C8 amended: a line is passed to the output handler exactly when it is not
a call-state line and some tracked call is running; call-state lines are
consumed (or crash the task when from_urn rejects them). -/
theorem consume_line_output_characterization (t : CallTracker) (line : List Nat) :
    (isCallStateLine line = false →
      consumeLine t line = StepResult.normal t t.any_running)
    ∧ (isCallStateLine line = true →
      consumeLine t line = StepResult.crashed
      ∨ ∃ cs, CallState.from_urn (stripBytes line) = some cs
          ∧ consumeLine t line = StepResult.normal (CallTracker.handle t cs).1 false) := by
  constructor
  · intro h
    simp only [isCallStateLine, Bool.and_eq_false_iff] at h
    unfold consumeLine
    rcases h with h | h <;> simp [h]
  · intro h
    simp only [isCallStateLine, Bool.and_eq_true] at h
    obtain ⟨h1, h2⟩ := h
    cases hp : CallState.from_urn (stripBytes line) with
    | none => left; simp [consumeLine, h1, h2, hp]
    | some cs => right; exact ⟨cs, rfl, by simp [consumeLine, h1, h2, hp]⟩

/-- Witness for C8: a non-call-state line with a running call is emitted. -/
theorem consume_line_output_characterization_witness :
    consumeLine t2 (bs "platform noise") = StepResult.normal t2 t2.any_running :=
  (consume_line_output_characterization t2 (bs "platform noise")).1 (by decide)

/-- C4: with global guards G1, G2 and specific guard S1, the remote wrapper
acquires G1, G2, S1, calls the target, and releases S1, G2, G1. -/
theorem guard_acquire_release_order :
    composeGuards [1, 2] [3] =
      [GEvent.acq 1, GEvent.acq 2, GEvent.acq 3, GEvent.callTarget,
       GEvent.rel 3, GEvent.rel 2, GEvent.rel 1] := by decide

/-- C1: exceptions do not propagate as claimed under exception-aware after
guards. With a 3-parameter callback, signature dispatch passes the original
function to the zero-argument generator, so TypeError is raised before the
guard or the target runs: error and end are emitted, the callback never
observes the exception, and the caller receives TypeError instead of the
target's exception. With a 4-parameter callback the guard runs but its
generator swallows the exception: the callback observes it, yet the caller
sees a normal return, no error state is emitted, and an enclosing
exception-aware guard observes a null triple. -/
theorem after_guard_exception_contract_broken :
    modalWrapper (wrapAfterGuard AfterFlavor.exc 1 (targetRaising 7))
      = { events := [XEvent.emit FState.guard, XEvent.emit FState.start,
            XEvent.emit FState.error, XEvent.emit FState.ended],
          raised := some Exc.typeError }
    ∧ modalWrapper (wrapAfterGuard AfterFlavor.fnExc 2 (targetRaising 7))
      = { events := [XEvent.emit FState.guard, XEvent.emit FState.start, XEvent.target,
            XEvent.cbAfterExc 2 (some (Exc.user 7)), XEvent.emit FState.ended],
          raised := none }
    ∧ modalWrapper (wrapAfterGuard AfterFlavor.fnExc 3
          (wrapAfterGuard AfterFlavor.fnExc 2 (targetRaising 7)))
      = { events := [XEvent.emit FState.guard, XEvent.emit FState.start, XEvent.target,
            XEvent.cbAfterExc 2 (some (Exc.user 7)), XEvent.cbAfterExc 3 none,
            XEvent.emit FState.ended],
          raised := none } := by
  decide

/-- C2: the serialized call-state URN has nine parts and no message part, the
specification's example line with a trailing empty message is rejected by
from_urn, and a serialized error state cannot be parsed back, while non-error
states round-trip. -/
theorem callstate_urn_msg_not_roundtripped :
    CallState.from_urn (bs "mini:run:abcd1234:fn:train:f0:call:c0:start:") = none
    ∧ (splitOnColon (CallState.to_urn csE)).length = 9
    ∧ CallState.from_urn (CallState.to_urn csE) = none
    ∧ CallState.from_urn (CallState.to_urn csS) = some csS := by decide

/-- C7: on a trailing-drain timeout the exit path of send_batch_to only logs
a warning; it can never raise, and the function accepts no errors keyword. -/
theorem send_batch_to_never_raises_on_timeout :
    sendBatchToExit true = TrailingOutcome.warnedTimeout
    ∧ (∀ timedOut : Bool, sendBatchToExit timedOut ≠ TrailingOutcome.raisedTimeout)
    ∧ (bs "errors") ∉ sendBatchToParams := by decide

/-- C10: every batch the consumer hands to the receive handler is non-empty,
on any schedule of wakeups, drains and stop requests. -/
theorem consumer_batches_nonempty (script : List (Bool × List Nat)) (batch : List Nat)
    (h : batch ∈ consumerRun script) : batch ≠ [] := by
  induction script with
  | nil => simp [consumerRun] at h
  | cons entry rest ih =>
    obtain ⟨stopDone, vals⟩ := entry
    by_cases hv : vals.isEmpty = true
    · cases stopDone
      · simp only [consumerRun, hv] at h
        simp at h
        exact ih h
      · simp [consumerRun, hv] at h
    · cases stopDone
      · simp [consumerRun, hv] at h
        rcases h with h | h
        · subst h; simpa [List.isEmpty_iff] using hv
        · exact ih h
      · simp [consumerRun, hv] at h
        subst h; simpa [List.isEmpty_iff] using hv

/-- Witness for C10 on a concrete schedule. -/
theorem consumer_batches_nonempty_witness :
    [1] ∈ consumerRun [(false, [1]), (true, [])] ∧ ([1] : List Nat) ≠ [] :=
  ⟨by decide, consumer_batches_nonempty [(false, [1]), (true, [])] [1] (by decide)⟩

theorem unquote_cons_ne37 (b : Nat) (l : List Nat) (h : b ≠ 37) :
    unquote (b :: l) = b :: unquote l := by
  match l with
  | [] => simp [unquote, h]
  | [a] => simp [unquote, h]
  | a :: c :: rest => simp [unquote, h]

theorem unreserved_ne_37 (b : Nat) (h : isUnreserved b = true) : b ≠ 37 := by
  simp [isUnreserved] at h
  omega

theorem hex_isHex (n : Nat) (h : n < 16) : isHexDigit (hexUpper n) = true := by
  unfold hexUpper isHexDigit
  by_cases h10 : n < 10
  · simp [h10]; omega
  · simp [h10]; omega

theorem hex_val (n : Nat) (h : n < 16) : hexVal (hexUpper n) = n := by
  unfold hexUpper hexVal
  split_ifs <;> omega

theorem unquote_quote (l : List Nat) (h : ∀ b ∈ l, b < 256) : unquote (quote l) = l := by
  induction l with
  | nil => rfl
  | cons b rest ih =>
    have hb : b < 256 := h b (by simp)
    have hrest : ∀ x ∈ rest, x < 256 := fun x hx => h x (by simp [hx])
    rw [show quote (b :: rest) = expandByte b ++ quote rest from by simp [quote]]
    by_cases hu : isUnreserved b = true
    · rw [show expandByte b = [b] from by simp [expandByte, hu]]
      rw [List.cons_append, List.nil_append,
        unquote_cons_ne37 b _ (unreserved_ne_37 b hu), ih hrest]
    · rw [show expandByte b = [37, hexUpper (b / 16), hexUpper (b % 16)]
        from by simp [expandByte, hu]]
      have h1 : isHexDigit (hexUpper (b / 16)) = true := hex_isHex _ (by omega)
      have h2 : isHexDigit (hexUpper (b % 16)) = true := hex_isHex _ (by omega)
      have hv1 : hexVal (hexUpper (b / 16)) = b / 16 := hex_val _ (by omega)
      have hv2 : hexVal (hexUpper (b % 16)) = b % 16 := hex_val _ (by omega)
      simp only [List.cons_append, List.nil_append]
      rw [show unquote (37 :: hexUpper (b / 16) :: hexUpper (b % 16) :: quote rest)
          = if isHexDigit (hexUpper (b / 16)) && isHexDigit (hexUpper (b % 16)) then
              (hexVal (hexUpper (b / 16)) * 16 + hexVal (hexUpper (b % 16))) :: unquote (quote rest)
            else 37 :: unquote (hexUpper (b / 16) :: hexUpper (b % 16) :: quote rest) from rfl]
      rw [if_pos (by rw [h1, h2]; rfl), hv1, hv2, ih hrest]
      congr 1
      omega

theorem hexUpper_props (n : Nat) : hexUpper n ≠ 58 ∧ isWS (hexUpper n) = false := by
  unfold hexUpper isWS
  by_cases h10 : n < 10
  · simp [h10]; omega
  · simp [h10]; omega

theorem quote_byte_props (l : List Nat) : ∀ x ∈ quote l, x ≠ 58 ∧ isWS x = false := by
  intro x hx
  unfold quote at hx
  rw [List.mem_flatten] at hx
  obtain ⟨sub, hsub, hxsub⟩ := hx
  rw [List.mem_map] at hsub
  obtain ⟨b, _, rfl⟩ := hsub
  unfold expandByte at hxsub
  by_cases hu : isUnreserved b = true
  · rw [if_pos hu] at hxsub
    simp at hxsub
    subst hxsub
    simp [isUnreserved] at hu
    constructor
    · omega
    · simp [isWS]; omega
  · rw [if_neg hu] at hxsub
    simp at hxsub
    rcases hxsub with rfl | rfl | rfl
    · exact ⟨by omega, rfl⟩
    · exact hexUpper_props _
    · exact hexUpper_props _

theorem dropWhile_all_false (p : Nat → Bool) (l : List Nat) (h : ∀ x ∈ l, p x = false) :
    l.dropWhile p = l := by
  cases l with
  | nil => rfl
  | cons b rest => simp [List.dropWhile_cons, h b (by simp)]

theorem stripBytes_no_ws (l : List Nat) (h : ∀ x ∈ l, isWS x = false) : stripBytes l = l := by
  unfold stripBytes
  rw [dropWhile_all_false _ l h]
  rw [dropWhile_all_false _ l.reverse (fun x hx => h x (List.mem_reverse.mp hx))]
  exact List.reverse_reverse l

theorem splitOnColon_cons (b : Nat) (rest : List Nat) :
    splitOnColon (b :: rest)
      = match splitOnColon rest with
        | [] => [[]]
        | p :: ps => if b == 58 then [] :: p :: ps else (b :: p) :: ps := rfl

theorem splitOnColon_ne_nil (l : List Nat) : splitOnColon l ≠ [] := by
  cases l with
  | nil => simp [splitOnColon]
  | cons b rest =>
    rw [splitOnColon_cons]
    cases h : splitOnColon rest with
    | nil => simp
    | cons p ps =>
      by_cases hb : b = 58
      · simp [hb]
      · simp [hb]

theorem splitOnColon_no58 (p : List Nat) (h : ∀ x ∈ p, x ≠ 58) : splitOnColon p = [p] := by
  induction p with
  | nil => rfl
  | cons b rest ih =>
    have hb : b ≠ 58 := h b (by simp)
    have hr := ih (fun x hx => h x (by simp [hx]))
    unfold splitOnColon
    rw [hr]
    simp [hb]

theorem splitOnColon_part (p l : List Nat) (h : ∀ x ∈ p, x ≠ 58) :
    splitOnColon (p ++ 58 :: l) = p :: splitOnColon l := by
  induction p with
  | nil =>
    simp only [List.nil_append]
    rw [splitOnColon_cons]
    cases hs : splitOnColon l with
    | nil => exact absurd hs (splitOnColon_ne_nil l)
    | cons q qs => simp
  | cons b rest ih =>
    have hb : b ≠ 58 := h b (by simp)
    have hr := ih (fun x hx => h x (by simp [hx]))
    simp only [List.cons_append]
    rw [splitOnColon_cons, hr]
    simp [hb]

theorem splitOnColon_join (ps : List (List Nat)) (hne : ps ≠ [])
    (h : ∀ p ∈ ps, ∀ x ∈ p, x ≠ 58) : splitOnColon (joinColon ps) = ps := by
  induction ps with
  | nil => exact absurd rfl hne
  | cons p rest ih =>
    cases rest with
    | nil => exact splitOnColon_no58 p (h p (by simp))
    | cons q qs =>
      rw [show joinColon (p :: q :: qs) = p ++ 58 :: joinColon (q :: qs) from rfl]
      rw [splitOnColon_part p _ (h p (by simp))]
      rw [ih (by simp) (fun r hr x hx => h r (by simp [hr]) x hx)]

theorem mem_joinColon (ps : List (List Nat)) (x : Nat) (hx : x ∈ joinColon ps) :
    x = 58 ∨ ∃ p ∈ ps, x ∈ p := by
  induction ps with
  | nil => simp [joinColon] at hx
  | cons p rest ih =>
    cases rest with
    | nil =>
      rw [show joinColon [p] = p from rfl] at hx
      right; exact ⟨p, by simp, hx⟩
    | cons q qs =>
      rw [show joinColon (p :: q :: qs) = p ++ 58 :: joinColon (q :: qs) from rfl] at hx
      rcases List.mem_append.mp hx with hm | hm
      · right; exact ⟨p, by simp, hm⟩
      · rcases List.mem_cons.mp hm with hm | hm
        · left; exact hm
        · rcases ih hm with hm | ⟨r, hr, hxr⟩
          · left; exact hm
          · right; exact ⟨r, by simp [hr], hxr⟩

/-- C5 counterexample: with no parts, encoding gives the empty string, which
parses back to one empty part, not to the empty sequence. -/
theorem urn_roundtrip_fails_on_empty :
    parse_urn (to_urn []) = [[]] ∧ parse_urn (to_urn []) ≠ [] := by decide

/-- C5 amended: for every non-empty sequence of parts with arbitrary byte
content (colons and percents included), parse_urn inverts to_urn. -/
theorem urn_roundtrip_nonempty (parts : List (List Nat)) (hne : parts ≠ [])
    (hb : ∀ p ∈ parts, ∀ b ∈ p, b < 256) :
    parse_urn (to_urn parts) = parts := by
  unfold parse_urn to_urn
  have hws : ∀ x ∈ joinColon (parts.map quote), isWS x = false := by
    intro x hx
    rcases mem_joinColon _ x hx with rfl | ⟨p, hp, hxp⟩
    · rfl
    · obtain ⟨orig, _, rfl⟩ := List.mem_map.mp hp
      exact (quote_byte_props orig x hxp).2
  rw [stripBytes_no_ws _ hws]
  rw [splitOnColon_join (parts.map quote) (by simpa using hne) (fun p hp x hx => by
    obtain ⟨orig, _, rfl⟩ := List.mem_map.mp hp
    exact (quote_byte_props orig x hx).1)]
  rw [List.map_map]
  have hcong : ∀ p ∈ parts, (unquote ∘ quote) p = id p := fun p hp =>
    unquote_quote p (hb p hp)
  rw [List.map_congr_left hcong, List.map_id]

/-- Witness for C5 on parts containing a colon and a percent sign. -/
theorem urn_roundtrip_nonempty_witness :
    parse_urn (to_urn [bs "a:b", bs "100%"]) = [bs "a:b", bs "100%"] :=
  urn_roundtrip_nonempty [bs "a:b", bs "100%"] (by decide) (by decide)

theorem quote_ne_star (p : List Nat) : quote p ≠ [42] := by
  intro h
  cases p with
  | nil => simp [quote] at h
  | cons b rest =>
    rw [show quote (b :: rest) = expandByte b ++ quote rest from by simp [quote]] at h
    unfold expandByte at h
    by_cases hu : isUnreserved b = true
    · rw [if_pos hu] at h
      simp at h
      obtain ⟨rfl, -⟩ := h
      exact absurd hu (by decide)
    · rw [if_neg hu] at h
      simp at h

theorem matchParts_quote (ps : List (List Nat)) :
    ∀ xs, (∀ p ∈ ps, ∀ b ∈ p, b < 256) →
      (matchParts xs (ps.map quote) = true ↔ ∃ rest, xs = ps ++ rest) := by
  induction ps with
  | nil =>
    intro xs _
    constructor
    · intro _; exact ⟨xs, rfl⟩
    · intro _; cases xs <;> rfl
  | cons p ps' ih =>
    intro xs hb
    have hbp : ∀ b ∈ p, b < 256 := hb p (by simp)
    have hbps : ∀ q ∈ ps', ∀ b ∈ q, b < 256 := fun q hq => hb q (by simp [hq])
    have hstar : ¬((quote p == [42]) = true) := by simp [quote_ne_star p]
    cases xs with
    | nil =>
      simp only [List.map_cons]
      constructor
      · intro h
        rw [show matchParts [] (quote p :: ps'.map quote)
            = if quote p == [42] then matchParts [] (ps'.map quote) else false from rfl,
          if_neg hstar] at h
        exact absurd h (by simp)
      · rintro ⟨rest, hrest⟩
        exact absurd hrest (by simp)
    | cons x xs' =>
      simp only [List.map_cons]
      rw [show matchParts (x :: xs') (quote p :: ps'.map quote)
          = if quote p == [42] then matchParts xs' (ps'.map quote)
            else if x == unquote (quote p) then matchParts xs' (ps'.map quote) else false
          from rfl]
      rw [if_neg hstar, unquote_quote p hbp]
      by_cases hx : x = p
      · subst hx
        rw [if_pos (by simp)]
        rw [ih xs' hbps]
        constructor
        · rintro ⟨rest, hr⟩
          exact ⟨rest, by simp [hr]⟩
        · rintro ⟨rest, hr⟩
          simp only [List.cons_append, List.cons.injEq] at hr
          exact ⟨rest, hr.2⟩
      · rw [if_neg (by simp [hx])]
        constructor
        · intro h
          exact absurd h (by simp)
        · rintro ⟨rest, hr⟩
          simp only [List.cons_append, List.cons.injEq] at hr
          exact absurd hr.1 hx

theorem splitOnColon_star (n : Nat) (h : 1 ≤ n) :
    splitOnColon (starPattern n) = List.replicate n [42] := by
  unfold starPattern
  apply splitOnColon_join
  · intro hrep
    rw [List.replicate_eq_nil_iff] at hrep
    omega
  · intro p hp x hx
    rw [List.eq_of_mem_replicate hp] at hx
    simp at hx
    omega

theorem matchParts_star (xs : List (List Nat)) :
    matchParts xs (List.replicate xs.length [42]) = true := by
  induction xs with
  | nil => rfl
  | cons x xs' ih =>
    rw [show (x :: xs').length = xs'.length + 1 from rfl, List.replicate_succ]
    rw [show matchParts (x :: xs') ([42] :: List.replicate xs'.length [42])
        = if ([42] : List Nat) == [42] then matchParts xs' (List.replicate xs'.length [42])
          else if x == unquote [42] then matchParts xs' (List.replicate xs'.length [42])
          else false from rfl]
    rw [if_pos (by rfl)]
    exact ih

/-- C6 counterexample: a pattern shorter than the URN matches as a prefix, so
matching an encoded pattern is not equivalent to decode equality. -/
theorem matches_shorter_pattern_counterexample :
    matches_urn (bs "a:b") (to_urn [bs "a"]) = true
    ∧ parse_urn (bs "a:b") ≠ [bs "a"] := by decide

/-- C6 amended: matching against an encoded non-empty pattern holds exactly
when the pattern's parts are a prefix of the parsed URN (so equality holds
when the arities agree), and an all-wildcard pattern of the URN's arity
always matches. -/
theorem matches_encode_iff_extends (urn : List Nat) (parts : List (List Nat))
    (hne : parts ≠ []) (hb : ∀ p ∈ parts, ∀ b ∈ p, b < 256) :
    (matches_urn urn (to_urn parts) = true ↔ ∃ rest, parse_urn urn = parts ++ rest)
    ∧ matches_urn urn (starPattern (parse_urn urn).length) = true := by
  constructor
  · unfold matches_urn to_urn
    rw [splitOnColon_join (parts.map quote) (by simpa using hne) (fun p hp x hx => by
      obtain ⟨orig, _, rfl⟩ := List.mem_map.mp hp
      exact (quote_byte_props orig x hx).1)]
    exact matchParts_quote parts (parse_urn urn) hb
  · unfold matches_urn
    have hlen : 1 ≤ (parse_urn urn).length := by
      unfold parse_urn
      cases h : splitOnColon (stripBytes urn) with
      | nil => exact absurd h (splitOnColon_ne_nil (stripBytes urn))
      | cons q qs => simp [h]
    rw [splitOnColon_star _ hlen]
    exact matchParts_star (parse_urn urn)

/-- Witness for C6 at a concrete URN and parts of matching arity. -/
theorem matches_encode_iff_extends_witness :
    (matches_urn (bs "x:y") (to_urn [bs "x", bs "y"]) = true
      ↔ ∃ rest, parse_urn (bs "x:y") = [bs "x", bs "y"] ++ rest)
    ∧ matches_urn (bs "x:y") (starPattern (parse_urn (bs "x:y")).length) = true :=
  matches_encode_iff_extends (bs "x:y") [bs "x", bs "y"] (by decide) (by decide)

end Mini
